import Mathlib

/-
  Verification development for `src/carrier_owl.py` (carrier-owl-cond-mat).

  Shallow-embedding conventions:
  * Python `str` is Lean `String` (a structure over `List Char`); the
    single-character `str.replace` calls of this program are embedded
    character-wise (`pyReplaceChar`).
  * Python `float` weights and scores are embedded as exact rationals `ℚ`
    (the scoring code only adds configured weights; IEEE rounding is
    abstracted away).
  * A Python `dict` of keywords is an association list `List (String × ℚ)`
    in insertion order, which is the dict's iteration order.
  * `sorted(l, key=lambda x: x[2], reverse=True)` - CPython's stable
    descending sort - is embedded as `List.insertionSort` over the
    relation `rScore x y := y.score ≤ x.score`; a stable sort is uniquely
    determined by its comparison, so this is extensionally the same list.
  * The selenium driver is abstracted: the text the poll loop would read
    on its j-th attempt is `reads j`; navigation and settle waits only
    influence the page state already captured by `reads`.
  * Python exceptions are `Except`.
-/

namespace CarrierOwl

/-- Python `s.replace(old, rep)` for a one-character pattern `old`
(`carrier_owl.py` only calls `str.replace` with one-character patterns):
every occurrence of `old` is replaced by the character list `rep`. -/
def pyReplaceChar (old : Char) (rep : List Char) : List Char → List Char
  | [] => []
  | c :: rest =>
    if c = old then rep ++ pyReplaceChar old rep rest else c :: pyReplaceChar old rep rest

/-- Python's substring test `pat in s` (line 64): `pat` occurs contiguously
in `s` (an empty `pat` is in every string). -/
def strIn (pat : List Char) : List Char → Bool
  | [] => pat.isEmpty
  | c :: rest => pat.isPrefixOf (c :: rest) || strIn pat rest

/-- The normalisation `t.lower().replace("-", " ")` applied to the abstract
(line 58) and to each keyword (line 64); `Char.toLower` matches Python
`str.lower` on the ASCII texts involved. -/
def normalize (s : String) : List Char :=
  pyReplaceChar '-' [' '] (s.data.map Char.toLower)

/-- Function `calc_score` (lines 57-67): iterate the keyword table in order, keep a
running sum of the weights of the keywords whose normalised form occurs in
the normalised abstract, and collect the original keywords that hit. -/
def calc_score (abst : String) (keywords : List (String × ℚ)) : ℚ × List String :=
  let abstN := normalize abst
  keywords.foldl
    (fun acc kw =>
      if strIn (normalize kw.1) abstN then (acc.1 + kw.2, acc.2 ++ [kw.1]) else acc)
    (0, [])

/-- Refinement target, following the spec's words: the keyword entries
whose normalised keyword occurs in the normalised text (`score(T, W) ==
sum(weight for k in W if normalized(k) in normalized(T))`, matched list
= the original keywords of those entries, in the mapping's order). -/
def specHits (T : String) (W : List (String × ℚ)) : List (String × ℚ) :=
  W.filter fun kw => strIn (normalize kw.1) (normalize T)

/-- The fields of a feed article that the scoring pipeline reads
(`article["title"]`, `article["summary"]`); the remaining metadata only
matters to `notify` and is passed there as an explicit mapping. -/
structure Article where
  title : String
  summary : String
deriving DecidableEq

/-- The tuples `(article, words, score)` produced by `convert` inside
`search_keyword` (lines 121-123). -/
abbrev Scored : Type := Article × List String × ℚ

/-- The descending-by-score comparison of line 127 (`key=lambda x: x[2]`,
`reverse=True`), as the reflexive relation a stable descending sort uses. -/
def rScore (x y : Scored) : Prop := y.2.2 ≤ x.2.2

instance : DecidableRel rScore := fun x y => inferInstanceAs (Decidable (y.2.2 ≤ x.2.2))

instance : IsTotal Scored rScore := ⟨fun x y => le_total y.2.2 x.2.2⟩

instance : IsTrans Scored rScore := ⟨fun _ _ _ hab hbc => le_trans hbc hab⟩

/-- Function `convert` (lines 121-123): attach hit words and score to an article. -/
def convertArticle (keywords : List (String × ℚ)) (a : Article) : Scored :=
  (a, (calc_score a.summary keywords).2, (calc_score a.summary keywords).1)

/-- Line 125: `converted = map(convert, articles)`. -/
def convertedArticles (articles : List Article) (keywords : List (String × ℚ)) :
    List Scored :=
  articles.map (convertArticle keywords)

/-- Line 126: `filter(lambda x: x[2] != 0 and x[2] >= score_threshold, converted)`. -/
def filterScored (score_threshold : ℚ) (l : List Scored) : List Scored :=
  l.filter fun x => decide (x.2.2 ≠ 0 ∧ x.2.2 ≥ score_threshold)

/-- Line 127: `raw = sorted(filtered, key=lambda x: x[2], reverse=True)`
(CPython's sort is stable, hence the stable `insertionSort`). -/
def rawSorted (articles : List Article) (keywords : List (String × ℚ))
    (score_threshold : ℚ) : List Scored :=
  List.insertionSort rScore (filterScored score_threshold (convertedArticles articles keywords))

/-- Python slice `l[:n]` for an `int` bound `n` (line 157, `raw[:max_posts]`):
a nonnegative bound keeps the first `n` items, a negative bound keeps all
but the last `|n|` items. -/
def pySlice (n : Int) (l : List α) : List α :=
  if 0 ≤ n then l.take n.toNat else l.take (l.length - (-n).toNat)

/-- The scoring/ranking portion of `search_keyword` (lines 116-127 together
with the `raw[:max_posts]` slice taken on line 157); the translation phase
(lines 129-160) is embedded separately as `raw2result`/`translateAndQuit`. -/
def search_keyword (articles : List Article) (keywords : List (String × ℚ))
    (score_threshold : ℚ) (max_posts : Int) : List Scored :=
  pySlice max_posts (rawSorted articles keywords score_threshold)

/-- The poll loop of `get_translated_text` (lines 107-113):
`for i in range(30): time.sleep(1); to_text = read(); if to_text: break`,
then `return to_text`.  `reads j` is the text the j-th read returns; the
result pairs the returned text with the number of reads performed.  When
`rem = 0` the loop has exhausted its attempts and `to_text` still holds
the last read, `reads (cnt - 1)`. -/
def pollAux (reads : Nat → String) (cnt : Nat) : Nat → String × Nat
  | 0 => (reads (cnt - 1), cnt)
  | rem + 1 => if reads cnt ≠ "" then (reads cnt, cnt + 1) else pollAux reads (cnt + 1) rem

/-- Line 91: `re.sub(r"([/|\\])", r"\\\1", from_text)` - prefix a backslash
to each occurrence of `/`, `|`, `\`; the matched character itself stays. -/
def escapeSeps (s : String) : String :=
  ⟨s.data.flatMap fun c => if c = '/' ∨ c = '|' ∨ c = '\\' then ['\\', c] else [c]⟩

/-- UTF-8 encoding of one character (the `str.encode` step inside
`urllib.parse.quote`). -/
def utf8Enc (c : Char) : List Nat :=
  let n := c.toNat
  if n < 128 then [n]
  else if n < 2048 then [192 + n / 64, 128 + n % 64]
  else if n < 65536 then [224 + n / 4096, 128 + n / 64 % 64, 128 + n % 64]
  else [240 + n / 262144, 128 + n / 4096 % 64, 128 + n / 64 % 64, 128 + n % 64]

/-- The bytes `urllib.parse.quote` leaves unescaped: the always-safe
characters `A-Z a-z 0-9 _ . - ~` plus the default `safe='/'` - note that
a forward slash is NOT percent-encoded by default. -/
def quoteSafe (b : Nat) : Bool :=
  decide ((65 ≤ b ∧ b ≤ 90) ∨ (97 ≤ b ∧ b ≤ 122) ∨ (48 ≤ b ∧ b ≤ 57) ∨
    b = 95 ∨ b = 46 ∨ b = 45 ∨ b = 126 ∨ b = 47)

/-- Uppercase hexadecimal digit. -/
def hexDigit (n : Nat) : Char := if n < 10 then Char.ofNat (48 + n) else Char.ofNat (55 + n)

/-- Python `urllib.parse.quote(s)` (line 92): UTF-8 encode, keep safe bytes,
percent-encode every other byte with uppercase hex. -/
def pyQuote (s : String) : String :=
  ⟨(s.data.flatMap utf8Enc).flatMap fun b =>
    if quoteSafe b then [Char.ofNat b] else ['%', hexDigit (b / 16), hexDigit (b % 16)]⟩

/-- Lines 95-102: the translator URL built from the languages and the
escaped, percent-encoded source text. -/
def deeplUrl (from_lang to_lang from_text : String) : String :=
  "https://www.deepl.com/translator#" ++ from_lang ++ "/" ++ to_lang ++ "/" ++
    pyQuote (escapeSeps from_text)

/-- Function `get_translated_text` (lines 84-113).  The driver is abstracted by
`reads`; `driver.get url` and the settle wait only influence the page
state already captured by `reads`.  The returned text is whatever the
poll loop read - nothing is decoded or un-escaped on the way out. -/
def get_translated_text (reads : Nat → String) (from_lang to_lang from_text : String) :
    String × Nat :=
  let _url := deeplUrl from_lang to_lang from_text
  pollAux reads 0 30

/-- Python `list(map(raw2result, raw))` on line 157 with a translation step that
may raise (selenium transport errors), embedded as `Except`: results in
input order, the first raised error propagates. -/
def translateAll (trans : α → Except ε β) : List α → Except ε (List β)
  | [] => .ok []
  | a :: rest =>
    match trans a with
    | .error e => .error e
    | .ok b =>
      match translateAll trans rest with
      | .error e => .error e
      | .ok bs => .ok (b :: bs)

/-- Lines 157-160: `result = list(map(raw2result, raw)); driver.quit();
return result`.  The boolean records whether `driver.quit()` executed:
the statement after the `map` runs only when no exception was raised -
`search_keyword` has no `try/finally` around the translation loop. -/
def translateAndQuit (trans : α → Except ε β) (raw : List α) : Except ε (List β) × Bool :=
  match translateAll trans raw with
  | .ok rs => (.ok rs, true)
  | .error e => (.error e, false)

/-- The `Result` dataclass (lines 26-32). -/
structure Result where
  article : Article
  title_trans : String
  summary_trans : String
  words : List String
  score : ℚ
deriving DecidableEq

/-- The inner `convert` of `raw2result` (lines 140-141):
`text.replace("$", "").replace("\n", " ")`, applied unconditionally to the
title and the summary before translation. -/
def convertText (t : String) : String :=
  ⟨pyReplaceChar '\n' [' '] (pyReplaceChar '$' [] t.data)⟩

/-- Function `raw2result` (lines 137-155), with the two translation calls
`get_translated_text(driver, lang, "en", text)` abstracted to `trans`. -/
def raw2result (trans : String → String) (x : Scored) : Result :=
  { article := x.1
    title_trans := trans (convertText x.1.title)
    summary_trans := trans (convertText x.1.summary)
    words := x.2.1
    score := x.2.2 }

/-- Values of the article mapping as far as `nice_str` (lines 181-187)
distinguishes them: a plain string, or a list of strings. -/
inductive PyVal where
  | s (v : String)
  | ls (v : List String)
deriving DecidableEq

/-- Function `nice_str` (lines 181-187): a list of strings is joined with ", ";
newlines in a string are collapsed to spaces. -/
def nice_str : PyVal → String
  | .ls v => String.intercalate ", " v
  | .s v => ⟨pyReplaceChar '\n' [' '] v.data⟩

/-- Decimal digits of `r/d` after the point by long division, at most
`fuel` of them; stops once the remainder is zero. -/
def fracDigits : Nat → Nat → Nat → List Char
  | 0, _, _ => []
  | _ + 1, 0, _ => []
  | fuel + 1, r, d => Nat.digitChar (r * 10 / d) :: fracDigits fuel (r * 10 % d) d

/-- Python `str()` of the float `score`, as `Template.substitute` applies
it on line 202: sign, integer part, point, fractional digits (whole
numbers print as `"3.0"`).  This equals CPython's shortest-roundtrip
float repr on values with a short exact decimal expansion, which covers
every score appearing in the claims. -/
def floatStr (q : ℚ) : String :=
  (if q < 0 then "-" else "") ++
    Nat.repr (q.num.natAbs / q.den) ++ "." ++
    (if q.num.natAbs % q.den = 0 then "0" else ⟨fracDigits 100 (q.num.natAbs % q.den) q.den⟩)

/-- One token of `string.Template`'s scan of a template: a literal
character, an escaped `$$`, a `$name`/`${name}` placeholder, or an
invalid `$` (which makes `substitute` raise `ValueError`). -/
inductive Tok where
  | lit (c : Char)
  | dollar
  | ref (n : String)
  | bad
deriving DecidableEq

/-- Pattern of `string.Template` identifier starts: `[_a-zA-Z]`. -/
def isIdStart (c : Char) : Bool :=
  decide (c = '_' ∨ ('a' ≤ c ∧ c ≤ 'z') ∨ ('A' ≤ c ∧ c ≤ 'Z'))

/-- Pattern of `string.Template` identifier characters: `[_a-zA-Z0-9]`. -/
def isIdChar (c : Char) : Bool := isIdStart c || decide ('0' ≤ c ∧ c ≤ '9')

/-- The scan `string.Template` performs with its default pattern: `$$`,
`$identifier`, `${identifier}`, and otherwise an invalid lone `$` (the
scan resumes right after that `$`). -/
def lexT : List Char → List Tok
  | [] => []
  | c :: rest =>
    if c = '$' then
      match hr : rest with
      | [] => [.bad]
      | c2 :: r =>
        if c2 = '$' then .dollar :: lexT r
        else if c2 = '{' then
          let body := r.takeWhile isIdChar
          let rest2 := r.dropWhile isIdChar
          if body ≠ [] ∧ isIdStart body.headI ∧ rest2.head? = some '}' then
            .ref ⟨body⟩ :: lexT rest2.tail
          else .bad :: lexT (c2 :: r)
        else if isIdStart c2 then
          .ref ⟨c2 :: r.takeWhile isIdChar⟩ :: lexT (r.dropWhile isIdChar)
        else .bad :: lexT (c2 :: r)
    else .lit c :: lexT rest
termination_by l => l.length
decreasing_by
  all_goals simp_wf
  all_goals try subst hr
  all_goals try omega
  all_goals
    first
    | exact Nat.lt_of_le_of_lt (Nat.sub_le _ _)
        (Nat.lt_of_le_of_lt (List.Sublist.length_le (List.dropWhile_sublist _)) (by omega))
    | exact Nat.lt_of_le_of_lt (List.Sublist.length_le (List.dropWhile_sublist _)) (by omega)

/-- The two errors `Template.substitute` can raise: `KeyError` (the
spec's `MissingFieldError`) for an absent placeholder name, `ValueError`
for an invalid `$` sequence. -/
inductive TErr where
  | missingField (n : String)
  | invalidPlaceholder
deriving DecidableEq

deriving instance DecidableEq for Except

/-- Prepend text to a substitution result that has not failed; a failure
already raised passes through. -/
def passThru (g : String → String) : Except TErr String → Except TErr String
  | .ok s => .ok (g s)
  | .error e => .error e

/-- Method `Template.substitute` as a left-to-right replacement over the scanned
tokens: the first invalid `$` raises `ValueError`, the first absent
placeholder name raises `KeyError`. -/
def substToks (fields : String → Option String) : List Tok → Except TErr String
  | [] => .ok ""
  | .lit c :: ts => passThru (fun s => c.toString ++ s) (substToks fields ts)
  | .dollar :: ts => passThru (fun s => "$" ++ s) (substToks fields ts)
  | .ref n :: ts =>
    match fields n with
    | some v => passThru (fun s => v ++ s) (substToks fields ts)
    | none => .error (.missingField n)
  | .bad :: _ => .error .invalidPlaceholder

/-- The placeholder names a template references, in scan order. -/
def refNames : List Tok → List String
  | [] => []
  | .ref n :: ts => n :: refNames ts
  | _ :: ts => refNames ts

/-- Call `Template(template).substitute(fields)` (line 202). -/
def substituteT (template : String) (fields : String → Option String) : Except TErr String :=
  substToks fields (lexT template.data)

/-- The merged field set of `notify` (lines 194-208):
`substitute(article_str, words=..., score=..., title_trans=...,
summary_trans=...)` - the keyword arguments override the article mapping,
article values go through `nice_str`, the float score through `str`. -/
def mergedFields (articleFields : List (String × PyVal))
    (words score title_trans summary_trans : String) : String → Option String :=
  fun n =>
    if n = "words" then some words
    else if n = "score" then some score
    else if n = "title_trans" then some title_trans
    else if n = "summary_trans" then some summary_trans
    else (articleFields.find? (fun kv => kv.1 == n)).map (fun kv => nice_str kv.2)

/-- The text `notify` renders for one result (lines 194-208), with the
article's field mapping (`article.items()`) passed explicitly. -/
def notifyText (template : String) (articleFields : List (String × PyVal))
    (r : Result) : Except TErr String :=
  substituteT template
    (mergedFields articleFields (nice_str (.ls r.words)) (floatStr r.score)
      r.title_trans r.summary_trans)

/-! Lemmas about the scoring engine. -/

theorem calc_score_eq (T : String) (W : List (String × ℚ)) :
    calc_score T W = (((specHits T W).map Prod.snd).sum, (specHits T W).map Prod.fst) := by
  have h : ∀ (L : List (String × ℚ)) (acc : ℚ × List String),
      L.foldl
        (fun acc kw =>
          if strIn (normalize kw.1) (normalize T) then (acc.1 + kw.2, acc.2 ++ [kw.1]) else acc)
        acc =
      (acc.1 + ((specHits T L).map Prod.snd).sum, acc.2 ++ (specHits T L).map Prod.fst) := by
    intro L
    induction L with
    | nil => intro acc; simp [specHits]
    | cons kw rest ih =>
      intro acc
      by_cases hkw : strIn (normalize kw.1) (normalize T) = true
      · simp only [List.foldl_cons, hkw, if_pos, ih, specHits, List.filter_cons, if_true,
          List.map_cons, List.sum_cons, Prod.mk.injEq]
        refine ⟨by ring, by simp⟩
      · simp only [List.foldl_cons, ih, specHits, List.filter_cons]
        rw [if_neg hkw, if_neg hkw]
  simpa [calc_score] using h W (0, [])

/-- C2: `calc_score(T, W)` returns the sum of the weights of exactly the
keywords whose normalised form occurs in the identically normalised `T`,
together with the original keywords of those matches in the mapping's
iteration order (`specHits` preserves the order of `W`). -/
theorem C2_calc_score_spec (T : String) (W : List (String × ℚ)) :
    (calc_score T W).1 = ((specHits T W).map Prod.snd).sum ∧
    (calc_score T W).2 = (specHits T W).map Prod.fst := by
  refine ⟨?_, ?_⟩ <;> rw [calc_score_eq]

/-- C3 counterexample: with weights that cancel (`{"a": 1, "b": -1}` on a
text matching both), the score is 0 while the matched list is non-empty,
so "score is 0 iff matched_keywords is empty" fails on the code. -/
theorem C3_counterexample :
    (calc_score "a b" [("a", 1), ("b", -1)]).1 = 0 ∧
    (calc_score "a b" [("a", 1), ("b", -1)]).2 = ["a", "b"] := by
  have h1 : strIn (normalize "a") (normalize "a b") = true := by decide
  have h2 : strIn (normalize "b") (normalize "a b") = true := by decide
  constructor
  · norm_num [calc_score, h1, h2]
  · simp [calc_score, h1, h2]

/-- C3 (amended): the score equals the sum of the weights of the matched
keyword entries, and an empty matched list forces score 0; the converse
(score 0 only when the matched list is empty) fails for negative weights
(see the counterexample). -/
theorem C3_amended_invariant (T : String) (W : List (String × ℚ)) :
    (calc_score T W).1 = ((specHits T W).map Prod.snd).sum ∧
    ((calc_score T W).2 = [] → (calc_score T W).1 = 0) := by
  refine ⟨(calc_score_eq T W ▸ rfl), ?_⟩
  intro h2
  rw [calc_score_eq] at h2 ⊢
  simp only [List.map_eq_nil_iff] at h2
  simp [h2]

/-- Witness for C3 (amended) at a text matching nothing. -/
theorem C3_amended_witness : (calc_score "zzz" [("q", 5)]).1 = 0 := by
  have hne : strIn (normalize "q") (normalize "zzz") = false := by decide
  exact (C3_amended_invariant "zzz" [("q", 5)]).2 (by simp [calc_score, hne])

/-! Lemmas about the ranking filter. -/

theorem mem_of_mem_pySlice {x : α} {n : Int} {l : List α} (h : x ∈ pySlice n l) : x ∈ l := by
  unfold pySlice at h
  split at h <;> exact List.take_subset _ _ h

theorem filter_eq_orderedInsert (s : ℚ) (x : Scored) (l : List Scored) :
    (List.orderedInsert rScore x l).filter (fun y => decide (y.2.2 = s)) =
      if x.2.2 = s then x :: l.filter (fun y => decide (y.2.2 = s))
      else l.filter (fun y => decide (y.2.2 = s)) := by
  induction l with
  | nil => by_cases hx : x.2.2 = s <;> simp [List.orderedInsert, hx]
  | cons y ys ih =>
    by_cases hxy : rScore x y
    · by_cases hx : x.2.2 = s <;>
        simp [List.orderedInsert, hxy, hx, List.filter_cons]
    · by_cases hy : y.2.2 = s
      · by_cases hx : x.2.2 = s
        · exact absurd (le_of_eq (hy.trans hx.symm) : y.2.2 ≤ x.2.2) hxy
        · simp [List.orderedInsert, hxy, hx, hy, List.filter_cons, ih]
      · by_cases hx : x.2.2 = s <;>
          simp [List.orderedInsert, hxy, hx, hy, List.filter_cons, ih]

theorem filter_eq_insertionSort (s : ℚ) (l : List Scored) :
    (List.insertionSort rScore l).filter (fun y => decide (y.2.2 = s)) =
      l.filter (fun y => decide (y.2.2 = s)) := by
  induction l with
  | nil => rfl
  | cons x xs ih =>
    simp only [List.insertionSort, filter_eq_orderedInsert, ih, List.filter_cons]
    by_cases hx : x.2.2 = s <;> simp [hx]

/-- C4: everything `search_keyword` retains (whatever the truncation
bound) has nonzero score and score at least the threshold; both
conditions are checked, so a zero-score tuple is dropped even when the
threshold is nonpositive. -/
theorem C4_threshold_filter (articles : List Article) (keywords : List (String × ℚ))
    (score_threshold : ℚ) (max_posts : Int) (x : Scored)
    (hx : x ∈ search_keyword articles keywords score_threshold max_posts) :
    x.2.2 ≠ 0 ∧ x.2.2 ≥ score_threshold := by
  have h1 : x ∈ rawSorted articles keywords score_threshold := mem_of_mem_pySlice hx
  have h2 : x ∈ filterScored score_threshold (convertedArticles articles keywords) :=
    (List.perm_insertionSort rScore _).mem_iff.1 h1
  have h3 := (List.mem_filter.1 h2).2
  simpa using h3

/-- Witness for C4 at a concrete run with one surviving article. -/
theorem C4_threshold_filter_witness :
    ((⟨"t", "x"⟩ : Article), ["x"], (1 : ℚ)) ∈ search_keyword [⟨"t", "x"⟩] [("x", 1)] 0 5 ∧
    ((1 : ℚ) ≠ 0 ∧ (1 : ℚ) ≥ 0) := by
  have h1 : strIn (normalize "x") (normalize "x") = true := by decide
  have h5 : Int.toNat 5 = 5 := rfl
  have hmem : ((⟨"t", "x"⟩ : Article), ["x"], (1 : ℚ)) ∈ search_keyword [⟨"t", "x"⟩] [("x", 1)] 0 5 := by
    norm_num [search_keyword, rawSorted, filterScored, convertedArticles, convertArticle,
      calc_score, h1, pySlice, List.insertionSort, List.orderedInsert, List.filter_cons,
      h5, List.take_succ_cons, List.take_nil]
  exact ⟨hmem, C4_threshold_filter [⟨"t", "x"⟩] [("x", 1)] 0 5 _ hmem⟩

/-- C5: the sort stage orders survivors by descending score
(`List.Sorted rScore`), and it is stable: for every score value `s`, the
survivors of score `s` appear in the sorted output exactly in the order
the filter stage produced them - which is their order in the input
article list, since `filterScored` is an order-preserving sublist of the
`map` over the input articles (third conjunct). -/
theorem C5_sort_stable (articles : List Article) (keywords : List (String × ℚ))
    (score_threshold : ℚ) :
    List.Sorted rScore (rawSorted articles keywords score_threshold) ∧
    (∀ s : ℚ, (rawSorted articles keywords score_threshold).filter (fun y => decide (y.2.2 = s)) =
      (filterScored score_threshold (convertedArticles articles keywords)).filter
        (fun y => decide (y.2.2 = s))) ∧
    (filterScored score_threshold (convertedArticles articles keywords)).Sublist
      (convertedArticles articles keywords) :=
  ⟨List.sorted_insertionSort rScore _, fun s => filter_eq_insertionSort s _,
    List.filter_sublist _⟩

/-- C1 (code bug): at the default `max_posts = -1` the Python slice
`raw[:max_posts]` is `raw[:-1]`, which DROPS the last (lowest-ranked)
survivor instead of returning all of them: with two surviving articles
the code returns only the first. -/
theorem C1_slice_drops_last :
    search_keyword [⟨"t1", "x"⟩, ⟨"t2", "x"⟩] [("x", 1)] 0 (-1) =
      [(⟨"t1", "x"⟩, ["x"], 1)] ∧
    (rawSorted [⟨"t1", "x"⟩, ⟨"t2", "x"⟩] [("x", 1)] 0).length = 2 := by
  have h1 : strIn (normalize "x") (normalize "x") = true := by decide
  constructor <;>
    norm_num [search_keyword, rawSorted, filterScored, convertedArticles, convertArticle,
      calc_score, h1, pySlice, List.insertionSort, List.orderedInsert, List.filter_cons,
      rScore]

/-! Lemmas about the translation poll loop. -/

theorem pollAux_stop (reads : Nat → String) :
    ∀ (rem cnt k : Nat), 1 ≤ k → k ≤ rem →
      (∀ j, cnt ≤ j → j < cnt + (k - 1) → reads j = "") →
      reads (cnt + (k - 1)) ≠ "" →
      pollAux reads cnt rem = (reads (cnt + (k - 1)), cnt + k) := by
  intro rem
  induction rem with
  | zero => intro cnt k h1 h2 _ _; exact absurd (le_trans h1 h2) (by omega)
  | succ r ih =>
    intro cnt k h1 h2 hemp hne
    by_cases hk : k = 1
    · subst hk
      simp only [Nat.sub_self, Nat.add_zero] at hne ⊢
      simp [pollAux, hne]
    · have h0 : reads cnt = "" := hemp cnt (le_refl _) (by omega)
      have hrec := ih (cnt + 1) (k - 1) (by omega) (by omega)
        (fun j hj1 hj2 => hemp j (by omega) (by omega))
        (by
          have e : cnt + 1 + (k - 1 - 1) = cnt + (k - 1) := by omega
          rw [e]; exact hne)
      have e1 : cnt + 1 + (k - 1 - 1) = cnt + (k - 1) := by omega
      have e2 : cnt + 1 + (k - 1) = cnt + k := by omega
      rw [e1, e2] at hrec
      simp only [pollAux]
      rw [if_neg (by simp [h0])]
      exact hrec

theorem pollAux_exhaust (reads : Nat → String) :
    ∀ (rem cnt : Nat), (∀ j, cnt ≤ j → j < cnt + rem → reads j = "") →
      pollAux reads cnt rem = (reads (cnt + rem - 1), cnt + rem) := by
  intro rem
  induction rem with
  | zero => intro cnt _; simp [pollAux]
  | succ r ih =>
    intro cnt h
    have h0 : reads cnt = "" := h cnt (le_refl _) (by omega)
    have hrec := ih (cnt + 1) (fun j hj1 hj2 => h j (by omega) (by omega))
    have e1 : cnt + 1 + r - 1 = cnt + (r + 1) - 1 := by omega
    have e2 : cnt + 1 + r = cnt + (r + 1) := by omega
    rw [e1, e2] at hrec
    simp only [pollAux]
    rw [if_neg (by simp [h0])]
    exact hrec

/-- C6: if the page first shows a non-empty output on read `k` (1-based,
`k ≤ 30`), the poll loop stops there and returns that output after
exactly `k` reads; if all 30 reads are empty, it returns the empty
string (the last read) after 30 reads, raising nothing. -/
theorem C6_poll_loop :
    (∀ (reads : Nat → String) (from_lang to_lang from_text : String) (k : Nat),
      1 ≤ k → k ≤ 30 →
      (∀ j, j < k - 1 → reads j = "") → reads (k - 1) ≠ "" →
      get_translated_text reads from_lang to_lang from_text = (reads (k - 1), k)) ∧
    (∀ (reads : Nat → String) (from_lang to_lang from_text : String),
      (∀ j, j < 30 → reads j = "") →
      get_translated_text reads from_lang to_lang from_text = ("", 30)) := by
  constructor
  · intro reads fl tl ft k h1 h2 hemp hne
    have h := pollAux_stop reads 30 0 k h1 h2
      (fun j hj1 hj2 => hemp j (by omega)) (by simpa using hne)
    simpa [get_translated_text] using h
  · intro reads fl tl ft hall
    have h := pollAux_exhaust reads 30 0 (fun j hj1 hj2 => hall j (by omega))
    have h29 : reads (0 + 30 - 1) = "" := hall 29 (by omega)
    rw [h29] at h
    simpa [get_translated_text] using h

/-- Witness for C6: output appears on the third read / never appears. -/
theorem C6_poll_loop_witness :
    get_translated_text (fun n => if n = 2 then "ok" else "") "ja" "en" "t" = ("ok", 3) ∧
    get_translated_text (fun _ => "") "ja" "en" "t" = ("", 30) := by
  constructor
  · have h := C6_poll_loop.1 (fun n => if n = 2 then "ok" else "") "ja" "en" "t" 3
      (by omega) (by omega)
      (fun j hj => by
        have hj2 : j ≠ 2 := by omega
        simp [hj2])
      (by simp)
    simpa using h
  · exact C6_poll_loop.2 (fun _ => "") "ja" "en" "t" (fun j _ => rfl)

/-! The session-lifecycle claim. -/

/-- C7 counterexample: a translation step that raises leaves
`driver.quit()` unexecuted - the flag is `false` on the error path, so
the close is NOT reached on every execution path. -/
theorem C7_counterexample :
    (translateAndQuit (fun _ : Unit => (Except.error () : Except Unit Unit)) [()]).2 = false :=
  rfl

/-- C7 (amended): `driver.quit()` is reached exactly when every
`raw2result` call returns without raising (timeouts do not raise, so
runs whose translations merely time out still close the session); an
exception mid-run propagates before the close, which `search_keyword`
does not guard with `try/finally`. -/
theorem C7_amended_quit {α β ε : Type} (trans : α → Except ε β) (raw : List α) :
    ((translateAndQuit trans raw).2 = true ↔ ∃ rs, translateAll trans raw = .ok rs) ∧
    (translateAndQuit trans raw).1 = translateAll trans raw := by
  cases h : translateAll trans raw with
  | ok rs => simp [translateAndQuit, h]
  | error e => simp [translateAndQuit, h]

/-- Witness for C7 (amended): a run whose translations all succeed does
close the session. -/
theorem C7_amended_quit_witness :
    (translateAndQuit (fun _ : Unit => (Except.ok 1 : Except Unit Nat)) [(), ()]).2 = true :=
  (C7_amended_quit (fun _ : Unit => (Except.ok 1 : Except Unit Nat)) [(), ()]).1.mpr
    ⟨[1, 1], rfl⟩

/-! The URL-escaping claim. -/

/-- C8 counterexample: on `"a/b"` the Prepare step does not substitute
the separator away - it prefixes a backslash, so `/` is still present
after the substitution, and `urllib.parse.quote` (whose default `safe`
set contains `/`) leaves it un-encoded in the final URL text; and the
poll result is returned exactly as read, with no reverse substitution
applied to it. -/
theorem C8_counterexample :
    escapeSeps "a/b" = "a\\/b" ∧ '/' ∈ (escapeSeps "a/b").data ∧
    pyQuote (escapeSeps "a/b") = "a%5C/b" ∧
    get_translated_text (fun _ => "done") "ja" "en" "a/b" = ("done", 1) := by
  refine ⟨by decide, by decide, by decide, ?_⟩
  simp [get_translated_text, pollAux]

/-- C8 (amended): the Prepare step backslash-escapes `/`, `|`, `\` and
then percent-encodes with `/` left literal (so the separator survives
into the URL, escaped as `\/` i.e. `%5C/`); nothing is reversed on the
translated result - the returned text does not depend on the source
text at all, it is exactly what the poll loop read. -/
theorem C8_amended_escape :
    escapeSeps "a/b" = "a\\/b" ∧
    deeplUrl "ja" "en" "a/b" = "https://www.deepl.com/translator#ja/en/a%5C/b" ∧
    (∀ (reads : Nat → String) (fl tl t t2 : String),
      get_translated_text reads fl tl t = get_translated_text reads fl tl t2) :=
  ⟨by decide, by decide, fun _ _ _ _ _ => rfl⟩

/-! The pre-translation text cleanup claim. -/

theorem mem_pyReplaceChar {c old : Char} {rep : List Char} {l : List Char}
    (h : c ∈ pyReplaceChar old rep l) : c ∈ rep ∨ (c ∈ l ∧ c ≠ old) := by
  induction l with
  | nil => simp [pyReplaceChar] at h
  | cons d rest ih =>
    by_cases hd : d = old
    · rw [pyReplaceChar, if_pos hd] at h
      rcases List.mem_append.1 h with h2 | h2
      · exact Or.inl h2
      · rcases ih h2 with h3 | ⟨h3, h4⟩
        · exact Or.inl h3
        · exact Or.inr ⟨List.mem_cons_of_mem _ h3, h4⟩
    · rw [pyReplaceChar, if_neg hd] at h
      rcases List.mem_cons.1 h with h2 | h2
      · exact Or.inr ⟨by simp [h2], by rw [h2]; exact hd⟩
      · rcases ih h2 with h3 | ⟨h3, h4⟩
        · exact Or.inl h3
        · exact Or.inr ⟨List.mem_cons_of_mem _ h3, h4⟩

/-- C10: `raw2result` translates exactly the cleaned title and summary,
and the cleanup output never contains a literal `$` nor a newline - this
happens unconditionally, with no configuration flag anywhere in
`raw2result`. -/
theorem C10_translation_input_clean (trans : String → String) (x : Scored) :
    (raw2result trans x).title_trans = trans (convertText x.1.title) ∧
    (raw2result trans x).summary_trans = trans (convertText x.1.summary) ∧
    (∀ t : String, '$' ∉ (convertText t).data ∧ '\n' ∉ (convertText t).data) := by
  refine ⟨rfl, rfl, fun t => ⟨?_, ?_⟩⟩
  · intro h
    rcases mem_pyReplaceChar h with h2 | ⟨h2, _⟩
    · simp at h2
    · rcases mem_pyReplaceChar h2 with h3 | ⟨_, h4⟩
      · simp at h3
      · exact h4 rfl
  · intro h
    rcases mem_pyReplaceChar h with h2 | ⟨_, h3⟩
    · simp at h2
    · exact h3 rfl

/-- Witness for C10 at a concrete dirty text. -/
theorem C10_translation_input_clean_witness : '$' ∉ (convertText "a$\nb").data :=
  ((C10_translation_input_clean id (⟨"", ""⟩, [], 0)).2.2 "a$\nb").1

/-! Lemmas about template substitution. -/

theorem substToks_wf (fields : String → Option String) :
    ∀ ts : List Tok, Tok.bad ∉ ts →
      ((∃ s, substToks fields ts = .ok s) ↔ ∀ n ∈ refNames ts, (fields n).isSome = true) ∧
      (∀ n, substToks fields ts = .error (.missingField n) →
        n ∈ refNames ts ∧ fields n = none) ∧
      substToks fields ts ≠ .error .invalidPlaceholder := by
  intro ts
  induction ts with
  | nil =>
    intro _
    refine ⟨by simp [substToks, refNames], ?_, by simp [substToks]⟩
    intro n h
    simp [substToks] at h
  | cons t ts ih =>
    intro hbad
    have hbad' : Tok.bad ∉ ts := fun h => hbad (List.mem_cons_of_mem _ h)
    obtain ⟨ih1, ih2, ih3⟩ := ih hbad'
    have key : ∀ (g : String → String),
        ((∃ s, passThru g (substToks fields ts) = .ok s) ↔
          ∃ s, substToks fields ts = .ok s) ∧
        (∀ err, passThru g (substToks fields ts) = .error err ↔
          substToks fields ts = .error err) := by
      intro g
      cases h : substToks fields ts with
      | ok s => simp [passThru]
      | error e => simp [passThru]
    cases t with
    | bad => exact absurd (List.mem_cons_self _ _) hbad
    | lit c =>
      refine ⟨?_, ?_, ?_⟩
      · simp only [substToks, refNames]
        rw [(key _).1]
        exact ih1
      · intro n h
        simp only [substToks] at h
        rw [(key _).2] at h
        simpa [refNames] using ih2 n h
      · intro h
        simp only [substToks] at h
        rw [(key _).2] at h
        exact ih3 h
    | dollar =>
      refine ⟨?_, ?_, ?_⟩
      · simp only [substToks, refNames]
        rw [(key _).1]
        exact ih1
      · intro n h
        simp only [substToks] at h
        rw [(key _).2] at h
        simpa [refNames] using ih2 n h
      · intro h
        simp only [substToks] at h
        rw [(key _).2] at h
        exact ih3 h
    | ref n0 =>
      cases hf : fields n0 with
      | some v =>
        refine ⟨?_, ?_, ?_⟩
        · simp only [substToks, refNames, hf]
          rw [(key _).1, ih1]
          simp [List.forall_mem_cons, hf]
        · intro n h
          simp only [substToks, hf] at h
          rw [(key _).2] at h
          have h2 := ih2 n h
          simp only [refNames]
          exact ⟨List.mem_cons_of_mem _ h2.1, h2.2⟩
        · intro h
          simp only [substToks, hf] at h
          rw [(key _).2] at h
          exact ih3 h
      | none =>
        refine ⟨?_, ?_, ?_⟩
        · simp only [substToks, refNames, hf]
          constructor
          · rintro ⟨s, hs⟩
            simp at hs
          · intro hall
            have h0 := hall n0 (List.mem_cons_self _ _)
            rw [hf] at h0
            simp at h0
        · intro n h
          simp only [substToks, hf] at h
          simp only [Except.error.injEq, TErr.missingField.injEq] at h
          simp only [refNames]
          exact ⟨h ▸ List.mem_cons_self _ _, h ▸ hf⟩
        · intro h
          simp only [substToks, hf] at h
          simp at h

/-- C9 counterexample: a template consisting of a lone `$` references no
placeholder at all - every referenced name is trivially present in the
merged field set - yet rendering fails, and it fails with `ValueError`
(invalid placeholder), not with the missing-field `KeyError`; so "fails
with MissingFieldError exactly when a referenced name is absent; succeeds
when all referenced names are present" is false as stated. -/
theorem C9_counterexample :
    notifyText "$" [] ⟨⟨"t", "s"⟩, "", "", [], 0⟩ = .error .invalidPlaceholder ∧
    refNames (lexT "$".data) = [] := by
  have hlex : lexT "$".data = [Tok.bad] := by simp [lexT]
  constructor
  · have e1 : notifyText "$" [] ⟨⟨"t", "s"⟩, "", "", [], 0⟩ =
        substToks (mergedFields [] (nice_str (.ls [])) (floatStr 0) "" "")
          (lexT "$".data) := rfl
    rw [e1, hlex]
    rfl
  · rw [hlex]
    rfl

/-- C9 (amended): for templates whose every `$` starts a valid `$$`,
`$name` or `${name}` sequence, rendering fails - necessarily with the
missing-field error - exactly when some referenced placeholder name is
absent from the merged field set, and succeeds when all referenced names
are present; an ill-formed `$` instead raises the invalid-placeholder
`ValueError` even though no referenced name is missing (see the
counterexample).  Rendering `${score}` against a result with score 3.5
yields the literal substring "3.5". -/
theorem C9_template_rendering :
    (∀ (tmpl : String) (fields : String → Option String), Tok.bad ∉ lexT tmpl.data →
      ((∃ s, substituteT tmpl fields = .ok s) ↔
        ∀ n ∈ refNames (lexT tmpl.data), (fields n).isSome = true) ∧
      (∀ n, substituteT tmpl fields = .error (.missingField n) →
        n ∈ refNames (lexT tmpl.data) ∧ fields n = none) ∧
      substituteT tmpl fields ≠ .error .invalidPlaceholder) ∧
    notifyText "score: ${score}" [] ⟨⟨"t", "s"⟩, "", "", [], 7/2⟩ = .ok "score: 3.5" ∧
    (∃ p q : String, "score: 3.5" = p ++ "3.5" ++ q) := by
  refine ⟨fun tmpl fields h => substToks_wf fields (lexT tmpl.data) h, ?_, ⟨"score: ", "", by decide⟩⟩
  have h1 : ((7 : ℚ)/2).num = 7 := by norm_num
  have h2 : ((7 : ℚ)/2).den = 2 := by norm_num
  have h3 : ¬((7 : ℚ)/2 < 0) := by norm_num
  have hfs : floatStr ((7 : ℚ)/2) = "3.5" := by
    simp only [floatStr, h1, h2, h3, if_false]
    decide
  have hlex : lexT "score: ${score}".data =
      [.lit 's', .lit 'c', .lit 'o', .lit 'r', .lit 'e', .lit ':', .lit ' ',
        .ref "score"] := by
    simp [lexT, isIdChar, isIdStart]
  have e1 : notifyText "score: ${score}" [] ⟨⟨"t", "s"⟩, "", "", [], 7/2⟩ =
      substToks (mergedFields [] (nice_str (.ls [])) (floatStr ((7 : ℚ)/2)) "" "")
        (lexT "score: ${score}".data) := rfl
  rw [e1, hfs, hlex]
  decide

/-- Witness for C9 (amended): the `${score}` template renders successfully
against the merged field set. -/
theorem C9_template_rendering_witness :
    ∃ s, substituteT "${score}" (mergedFields [] "w" "3.5" "tt" "ss") = .ok s := by
  have hlex : lexT "${score}".data = [Tok.ref "score"] := by
    simp [lexT, isIdChar, isIdStart]
  have h := C9_template_rendering.1 "${score}" (mergedFields [] "w" "3.5" "tt" "ss")
    (by rw [hlex]; decide)
  refine h.1.mpr ?_
  intro n hn
  rw [hlex] at hn
  simp only [refNames] at hn
  simp at hn
  subst hn
  decide

end CarrierOwl
